import Mathlib

/-!
Verification of the MarketPulse market-data spine against its specification.

The definitions below are a shallow embedding of the C++ sources:
  src/common/crc32.cpp, src/common/frame.cpp, src/normalize/normalizer.cpp,
  src/publisher/pub_server.cpp, src/recorder/recorder.cpp,
  src/replay/replayer.cpp.
Machine integers are modelled as `Nat` / `Int` with explicit range
conditions; byte buffers are `List Nat` whose entries are byte values;
fallible operations return `Option` / products with explicit flags.
-/

namespace MarketPulse

/-! ## Little-endian byte serialization

The C++ code serializes the packed structs by `memcpy`; on the target
platform that is little-endian field-by-field serialization.  `toLE w x`
is the `w`-byte little-endian encoding of `x`, `fromLE` the inverse. -/

/-- Little-endian byte encoding of a natural number into `w` bytes. -/
def toLE : Nat → Nat → List Nat
  | 0, _ => []
  | w + 1, x => x % 256 :: toLE w (x / 256)

/-- Read a little-endian number from a byte list (whole list). -/
def fromLE : List Nat → Nat
  | [] => 0
  | b :: bs => b + 256 * fromLE bs

/-- Consume `w` bytes of a byte list as a little-endian number, returning
the value together with the remaining bytes; fails when fewer than `w`
bytes are available. -/
def readLE (w : Nat) (l : List Nat) : Option (Nat × List Nat) :=
  if w ≤ l.length then some (fromLE (l.take w), l.drop w) else none

theorem toLE_length (w x : Nat) : (toLE w x).length = w := by
  induction w generalizing x with
  | zero => rfl
  | succ w ih => simp [toLE, ih]

theorem fromLE_toLE (w x : Nat) : fromLE (toLE w x) = x % 256 ^ w := by
  induction w generalizing x with
  | zero => simp [toLE, fromLE, Nat.mod_one]
  | succ w ih =>
    simp only [toLE, fromLE, ih]
    rw [pow_succ, Nat.mul_comm (256 ^ w) 256, Nat.mod_mul]

theorem readLE_append {w x : Nat} (r : List Nat) (hx : x < 256 ^ w) :
    readLE w (toLE w x ++ r) = some (x, r) := by
  have hlen : (toLE w x).length = w := toLE_length w x
  have htake : (toLE w x ++ r).take w = toLE w x := List.take_left' hlen
  have hdrop : (toLE w x ++ r).drop w = r := List.drop_left' hlen
  simp [readLE, List.length_append, hlen, htake, hdrop, fromLE_toLE,
        Nat.mod_eq_of_lt hx]

/-! ## Signed 64-bit values (two's complement) -/

/-- Two's-complement little-endian encoding of a signed value in `w`
bytes, as `memcpy` of an `int64_t` produces. -/
def toLEi (w : Nat) (x : Int) : List Nat :=
  toLE w (x.emod ((2 : Int) ^ (8 * w))).toNat

/-- Reinterpret a `Nat` below `2^64` as a two's-complement `int64_t`. -/
def asI64 (n : Nat) : Int :=
  if n < 2 ^ 63 then (n : Int) else (n : Int) - 2 ^ 64

/-- Consume 8 bytes as a little-endian signed 64-bit integer. -/
def readI64 (l : List Nat) : Option (Int × List Nat) :=
  (readLE 8 l).map fun p => (asI64 p.1, p.2)

theorem asI64_eq (n : Nat) :
    asI64 n = if n < 9223372036854775808 then (n : Int)
              else (n : Int) - 18446744073709551616 := by
  unfold asI64
  norm_num

theorem readI64_append {x : Int} (r : List Nat)
    (h1 : -(2 ^ 63) ≤ x) (h2 : x < 2 ^ 63) :
    readI64 (toLEi 8 x ++ r) = some (x, r) := by
  have h1' : -9223372036854775808 ≤ x := by
    have e : -((2 : Int) ^ 63) = -9223372036854775808 := by norm_num
    rw [e] at h1; exact h1
  have h2' : x < 9223372036854775808 := by
    have e : (2 : Int) ^ 63 = 9223372036854775808 := by norm_num
    rw [e] at h2; exact h2
  have key : (x + 18446744073709551616) % (18446744073709551616 : Int) =
      x % 18446744073709551616 := by
    have h := Int.add_mul_emod_self_left (a := x)
      (b := (18446744073709551616 : Int)) (c := 1)
    rw [mul_one] at h
    exact h
  have hmod : x.emod ((2 : Int) ^ (8 * 8)) =
      if 0 ≤ x then x else x + 18446744073709551616 := by
    have e : (2 : Int) ^ (8 * 8) = 18446744073709551616 := by norm_num
    rw [e]
    split
    · exact Int.emod_eq_of_lt (by assumption) (by omega)
    · rw [show x.emod (18446744073709551616 : Int) =
            x % 18446744073709551616 from rfl, ← key]
      exact Int.emod_eq_of_lt (by omega) (by omega)
  have hnat : (x.emod ((2 : Int) ^ (8 * 8))).toNat < 256 ^ 8 := by
    rw [hmod]
    have e : (256 : Nat) ^ 8 = 18446744073709551616 := by norm_num
    rw [e]
    split <;> omega
  rw [toLEi, readI64, readLE_append r hnat]
  have hval : asI64 (x.emod ((2 : Int) ^ (8 * 8))).toNat = x := by
    rw [hmod, asI64_eq]
    rcases le_or_lt 0 x with hx | hx
    · rw [if_pos hx, if_pos (by omega)]
      omega
    · rw [if_neg (by omega), if_neg (by omega)]
      omega
  have e64 : (2 : Int) ^ (8 * 8) = 18446744073709551616 := by norm_num
  rw [e64] at hval
  simp [hval]

/-! ## CRC32 (src/common/crc32.cpp)

The source builds a 256-entry table (`init_table`): entry `i` is the
result of 8 rounds of the reflected-polynomial step starting from `i`.
`calculate_crc32` folds the table step over the bytes with initial value
`0xFFFFFFFF` and final XOR `0xFFFFFFFF`. -/

/-- One bit round of the table construction: shift right, conditionally
XOR the reflected IEEE polynomial `0xEDB88320` (from `init_table`). -/
def crc32Step (crc : Nat) : Nat :=
  if crc % 2 = 1 then (crc / 2) ^^^ 0xEDB88320 else crc / 2

/-- Entry `i` of `crc32_table`: eight rounds of `crc32Step` on `i`. -/
def crc32Entry (i : Nat) : Nat :=
  crc32Step (crc32Step (crc32Step (crc32Step
    (crc32Step (crc32Step (crc32Step (crc32Step i)))))))

/-- One byte of `calculate_crc32`:
`crc = (crc >> 8) ^ crc32_table[(crc & 0xFF) ^ byte]`; the byte goes
through `static_cast<uint8_t>`, modelled by `% 256`. -/
def crc32Update (crc b : Nat) : Nat :=
  (crc / 256) ^^^ crc32Entry ((crc % 256) ^^^ b % 256)

/-- `calculate_crc32` from src/common/crc32.cpp: fold of the table step
over the data bytes, initial value `0xFFFFFFFF`, final XOR `0xFFFFFFFF`. -/
def calculate_crc32 (data : List Nat) : Nat :=
  (data.foldl crc32Update 0xFFFFFFFF) ^^^ 0xFFFFFFFF

/-! ## Wire framing (src/common/frame.hpp, src/common/frame.cpp)

The packed body structs, the frame variant, and byte-exact encode /
decode.  Sizes of the packed structs: L1 52, L2 40, Trade 37,
Heartbeat 8, ControlAck 8 bytes (`#pragma pack(push, 1)`). -/

/-- `md::L1Body` (packed, 52 bytes). -/
structure L1Body where
  ts_ns : Nat
  symbol_id : Nat
  bid_px : Int
  bid_sz : Nat
  ask_px : Int
  ask_sz : Nat
  seq : Nat
deriving DecidableEq, Repr

/-- `md::L2Body` (packed, 40 bytes). -/
structure L2Body where
  ts_ns : Nat
  symbol_id : Nat
  side : Nat
  action : Nat
  level : Nat
  price : Int
  size : Nat
  seq : Nat
deriving DecidableEq, Repr

/-- `md::TradeBody` (packed, 37 bytes). -/
structure TradeBody where
  ts_ns : Nat
  symbol_id : Nat
  price : Int
  size : Nat
  aggressor_side : Nat
  seq : Nat
deriving DecidableEq, Repr

/-- `md::HbBody` (packed, 8 bytes). -/
structure HbBody where
  ts_ns : Nat
deriving DecidableEq, Repr

/-- `md::ControlAckBody` (packed, 8 bytes). -/
structure ControlAckBody where
  ack_code : Nat
  reserved : Nat
deriving DecidableEq, Repr

/-- `md::FrameBody`, the `std::variant` of the five body types. -/
inductive FrameBody where
  | l1 (b : L1Body)
  | l2 (b : L2Body)
  | trade (b : TradeBody)
  | hb (b : HbBody)
  | ack (b : ControlAckBody)
deriving DecidableEq, Repr

/-- The `msg_type` tag the `Frame` constructors assign to each variant. -/
def FrameBody.msg_type : FrameBody → Nat
  | .l1 _ => 1
  | .l2 _ => 2
  | .trade _ => 3
  | .hb _ => 4
  | .ack _ => 5

/-- The `body_len` (`sizeof` of the packed struct) of each variant. -/
def FrameBody.body_len : FrameBody → Nat
  | .l1 _ => 52
  | .l2 _ => 40
  | .trade _ => 37
  | .hb _ => 8
  | .ack _ => 8

/-- `md::FrameHeader` (16 bytes, packed). -/
structure FrameHeader where
  magic : Nat
  version : Nat
  msg_type : Nat
  body_len : Nat
  crc32 : Nat
deriving DecidableEq, Repr

/-- `md::Frame`. -/
structure Frame where
  header : FrameHeader
  body : FrameBody
deriving DecidableEq, Repr

/-- The `Frame(body)` constructors: default header (`magic 0x4D444146`,
`version 1`), `msg_type` and `body_len` set from the variant.  The
source leaves `header.crc32` uninitialized; it is modelled as `0` and
never read by `encode_frame`, which recomputes the CRC. -/
def mkFrame (b : FrameBody) : Frame :=
  ⟨⟨0x4D444146, 1, b.msg_type, b.body_len, 0⟩, b⟩

/-- Byte serialization of a body, as `memcpy` of the packed struct
produces on a little-endian machine. -/
def encodeBody : FrameBody → List Nat
  | .l1 b =>
    toLE 8 b.ts_ns ++ (toLE 4 b.symbol_id ++ (toLEi 8 b.bid_px ++
      (toLE 8 b.bid_sz ++ (toLEi 8 b.ask_px ++ (toLE 8 b.ask_sz ++
        toLE 8 b.seq)))))
  | .l2 b =>
    toLE 8 b.ts_ns ++ (toLE 4 b.symbol_id ++ (toLE 1 b.side ++
      (toLE 1 b.action ++ (toLE 2 b.level ++ (toLEi 8 b.price ++
        (toLE 8 b.size ++ toLE 8 b.seq))))))
  | .trade b =>
    toLE 8 b.ts_ns ++ (toLE 4 b.symbol_id ++ (toLEi 8 b.price ++
      (toLE 8 b.size ++ (toLE 1 b.aggressor_side ++ toLE 8 b.seq))))
  | .hb b => toLE 8 b.ts_ns
  | .ack b => toLE 4 b.ack_code ++ toLE 4 b.reserved

theorem encodeBody_length (b : FrameBody) :
    (encodeBody b).length = b.body_len := by
  cases b <;> simp [encodeBody, FrameBody.body_len, toLE_length, toLEi]

/-- `encode_frame` (src/common/frame.cpp): serialize the body, compute
the CRC32 over the body bytes, and prefix the 16-byte header carrying
the frame's magic, version, msg_type and body_len with that CRC. -/
def encode_frame (f : Frame) : List Nat :=
  let body := encodeBody f.body
  toLE 4 f.header.magic ++ (toLE 2 f.header.version ++
    (toLE 2 f.header.msg_type ++ (toLE 4 f.header.body_len ++
      (toLE 4 (calculate_crc32 body) ++ body))))

/-- Body deserialization for `msg_type` 1 (`memcpy` into `L1Body`). -/
def decodeL1 (l : List Nat) : Option L1Body := do
  let (ts, l) ← readLE 8 l
  let (sym, l) ← readLE 4 l
  let (bid, l) ← readI64 l
  let (bsz, l) ← readLE 8 l
  let (ask, l) ← readI64 l
  let (asz, l) ← readLE 8 l
  let (seq, _) ← readLE 8 l
  pure ⟨ts, sym, bid, bsz, ask, asz, seq⟩

/-- Body deserialization for `msg_type` 2 (`memcpy` into `L2Body`). -/
def decodeL2 (l : List Nat) : Option L2Body := do
  let (ts, l) ← readLE 8 l
  let (sym, l) ← readLE 4 l
  let (side, l) ← readLE 1 l
  let (action, l) ← readLE 1 l
  let (level, l) ← readLE 2 l
  let (price, l) ← readI64 l
  let (size, l) ← readLE 8 l
  let (seq, _) ← readLE 8 l
  pure ⟨ts, sym, side, action, level, price, size, seq⟩

/-- Body deserialization for `msg_type` 3 (`memcpy` into `TradeBody`). -/
def decodeTrade (l : List Nat) : Option TradeBody := do
  let (ts, l) ← readLE 8 l
  let (sym, l) ← readLE 4 l
  let (price, l) ← readI64 l
  let (size, l) ← readLE 8 l
  let (aggr, l) ← readLE 1 l
  let (seq, _) ← readLE 8 l
  pure ⟨ts, sym, price, size, aggr, seq⟩

/-- Body deserialization for `msg_type` 4 (`memcpy` into `HbBody`). -/
def decodeHb (l : List Nat) : Option HbBody := do
  let (ts, _) ← readLE 8 l
  pure ⟨ts⟩

/-- Body deserialization for `msg_type` 5 (`ControlAckBody`). -/
def decodeAck (l : List Nat) : Option ControlAckBody := do
  let (code, l) ← readLE 4 l
  let (res, _) ← readLE 4 l
  pure ⟨code, res⟩

/-- The `magic` field of the raw header bytes (`memcpy` at offset 0). -/
def hdr_magic (data : List Nat) : Nat := fromLE (data.take 4)

/-- The `version` field (offset 4). -/
def hdr_version (data : List Nat) : Nat := fromLE ((data.drop 4).take 2)

/-- The `msg_type` field (offset 6). -/
def hdr_msg_type (data : List Nat) : Nat :=
  fromLE (((data.drop 4).drop 2).take 2)

/-- The `body_len` field (offset 8). -/
def hdr_body_len (data : List Nat) : Nat :=
  fromLE ((((data.drop 4).drop 2).drop 2).take 4)

/-- The `crc32` field (offset 12). -/
def hdr_crc (data : List Nat) : Nat :=
  fromLE (((((data.drop 4).drop 2).drop 2).drop 4).take 4)

/-- The body bytes: `body_len` bytes after the 16-byte header. -/
def hdr_body_bytes (data : List Nat) : List Nat :=
  ((((((data.drop 4).drop 2).drop 2).drop 4).drop 4)).take (hdr_body_len data)

/-- The header record the decoder assembles from the raw bytes. -/
def parsed_header (data : List Nat) : FrameHeader :=
  ⟨hdr_magic data, hdr_version data, hdr_msg_type data,
   hdr_body_len data, hdr_crc data⟩

/-- `decode_frame` (src/common/frame.cpp).  Mirrors the source checks in
order: header present, magic/version, total length against `body_len`,
CRC over the body bytes, then per-variant `body_len` check and body
`memcpy`.  Every failure — including truncated input — returns `none`
(`std::nullopt`): the source's return type `std::optional<Frame>` has a
single failure value. -/
def decode_frame (data : List Nat) : Option Frame :=
  if data.length < 16 then none
  else if hdr_magic data ≠ 0x4D444146 ∨ hdr_version data ≠ 1 then none
  else if data.length < 16 + hdr_body_len data then none
  else if calculate_crc32 (hdr_body_bytes data) ≠ hdr_crc data then none
  else if hdr_msg_type data = 1 then
    if hdr_body_len data ≠ 52 then none
    else (decodeL1 (hdr_body_bytes data)).map
      fun b => ⟨parsed_header data, .l1 b⟩
  else if hdr_msg_type data = 2 then
    if hdr_body_len data ≠ 40 then none
    else (decodeL2 (hdr_body_bytes data)).map
      fun b => ⟨parsed_header data, .l2 b⟩
  else if hdr_msg_type data = 3 then
    if hdr_body_len data ≠ 37 then none
    else (decodeTrade (hdr_body_bytes data)).map
      fun b => ⟨parsed_header data, .trade b⟩
  else if hdr_msg_type data = 4 then
    if hdr_body_len data ≠ 8 then none
    else (decodeHb (hdr_body_bytes data)).map
      fun b => ⟨parsed_header data, .hb b⟩
  else if hdr_msg_type data = 5 then
    if hdr_body_len data ≠ 8 then none
    else (decodeAck (hdr_body_bytes data)).map
      fun b => ⟨parsed_header data, .ack b⟩
  else none

/-! ## Field-range invariants

The C++ fields are fixed-width machine integers; the `Nat`/`Int` model
carries their ranges explicitly. -/

/-- Range of the `uint64/uint32/int64` fields of `L1Body`. -/
def L1Body.WF (b : L1Body) : Prop :=
  b.ts_ns < 2 ^ 64 ∧ b.symbol_id < 2 ^ 32 ∧
  -(2 ^ 63) ≤ b.bid_px ∧ b.bid_px < 2 ^ 63 ∧ b.bid_sz < 2 ^ 64 ∧
  -(2 ^ 63) ≤ b.ask_px ∧ b.ask_px < 2 ^ 63 ∧ b.ask_sz < 2 ^ 64 ∧
  b.seq < 2 ^ 64

/-- Range of the fields of `L2Body`. -/
def L2Body.WF (b : L2Body) : Prop :=
  b.ts_ns < 2 ^ 64 ∧ b.symbol_id < 2 ^ 32 ∧ b.side < 2 ^ 8 ∧
  b.action < 2 ^ 8 ∧ b.level < 2 ^ 16 ∧
  -(2 ^ 63) ≤ b.price ∧ b.price < 2 ^ 63 ∧ b.size < 2 ^ 64 ∧
  b.seq < 2 ^ 64

/-- Range of the fields of `TradeBody`. -/
def TradeBody.WF (b : TradeBody) : Prop :=
  b.ts_ns < 2 ^ 64 ∧ b.symbol_id < 2 ^ 32 ∧
  -(2 ^ 63) ≤ b.price ∧ b.price < 2 ^ 63 ∧ b.size < 2 ^ 64 ∧
  b.aggressor_side < 2 ^ 8 ∧ b.seq < 2 ^ 64

/-- Range of the fields of `HbBody`. -/
def HbBody.WF (b : HbBody) : Prop := b.ts_ns < 2 ^ 64

/-- Range of the fields of `ControlAckBody`. -/
def ControlAckBody.WF (b : ControlAckBody) : Prop :=
  b.ack_code < 2 ^ 32 ∧ b.reserved < 2 ^ 32

/-- Range invariant for a frame body variant. -/
def FrameBody.WF : FrameBody → Prop
  | .l1 b => b.WF
  | .l2 b => b.WF
  | .trade b => b.WF
  | .hb b => b.WF
  | .ack b => b.WF

instance (b : L1Body) : Decidable b.WF := by unfold L1Body.WF; infer_instance
instance (b : L2Body) : Decidable b.WF := by unfold L2Body.WF; infer_instance
instance (b : TradeBody) : Decidable b.WF := by
  unfold TradeBody.WF; infer_instance
instance (b : HbBody) : Decidable b.WF := by unfold HbBody.WF; infer_instance
instance (b : ControlAckBody) : Decidable b.WF := by
  unfold ControlAckBody.WF; infer_instance
instance (b : FrameBody) : Decidable b.WF := by
  cases b <;> (unfold FrameBody.WF; infer_instance)

/-! ## Round-trip lemmas -/

theorem take_toLE (w x : Nat) (r : List Nat) :
    (toLE w x ++ r).take w = toLE w x :=
  List.take_left' (toLE_length w x)

theorem drop_toLE (w x : Nat) (r : List Nat) :
    (toLE w x ++ r).drop w = r :=
  List.drop_left' (toLE_length w x)

theorem fromLE_toLE_self {w x : Nat} (h : x < 256 ^ w) :
    fromLE (toLE w x) = x := by
  rw [fromLE_toLE, Nat.mod_eq_of_lt h]

theorem readLE_exact {w x : Nat} (hx : x < 256 ^ w) :
    readLE w (toLE w x) = some (x, []) := by
  have h := readLE_append ([] : List Nat) hx
  rwa [List.append_nil] at h

theorem readI64_exact {x : Int} (h1 : -(2 ^ 63) ≤ x) (h2 : x < 2 ^ 63) :
    readI64 (toLEi 8 x) = some (x, []) := by
  have h := readI64_append ([] : List Nat) h1 h2
  rwa [List.append_nil] at h

theorem decodeL1_encodeBody (b : L1Body) (h : b.WF) :
    decodeL1 (encodeBody (.l1 b)) = some b := by
  obtain ⟨h1, h2, h3, h4, h5, h6, h7, h8, h9⟩ := h
  have e64 : (2 : Nat) ^ 64 = 256 ^ 8 := by norm_num
  have e32 : (2 : Nat) ^ 32 = 256 ^ 4 := by norm_num
  simp [decodeL1, encodeBody,
        readLE_append _ (e64 ▸ h1), readLE_append _ (e32 ▸ h2),
        readI64_append _ h3 h4, readLE_append _ (e64 ▸ h5),
        readI64_append _ h6 h7, readLE_append _ (e64 ▸ h8),
        readLE_exact (e64 ▸ h9)]

theorem decodeL2_encodeBody (b : L2Body) (h : b.WF) :
    decodeL2 (encodeBody (.l2 b)) = some b := by
  obtain ⟨h1, h2, h3, h4, h5, h6, h7, h8, h9⟩ := h
  have e64 : (2 : Nat) ^ 64 = 256 ^ 8 := by norm_num
  have e32 : (2 : Nat) ^ 32 = 256 ^ 4 := by norm_num
  have e8 : (2 : Nat) ^ 8 = 256 ^ 1 := by norm_num
  have e16 : (2 : Nat) ^ 16 = 256 ^ 2 := by norm_num
  simp [decodeL2, encodeBody,
        readLE_append _ (e64 ▸ h1), readLE_append _ (e32 ▸ h2),
        readLE_append _ (e8 ▸ h3), readLE_append _ (e8 ▸ h4),
        readLE_append _ (e16 ▸ h5), readI64_append _ h6 h7,
        readLE_append _ (e64 ▸ h8), readLE_exact (e64 ▸ h9)]

theorem decodeTrade_encodeBody (b : TradeBody) (h : b.WF) :
    decodeTrade (encodeBody (.trade b)) = some b := by
  obtain ⟨h1, h2, h3, h4, h5, h6, h7⟩ := h
  have e64 : (2 : Nat) ^ 64 = 256 ^ 8 := by norm_num
  have e32 : (2 : Nat) ^ 32 = 256 ^ 4 := by norm_num
  have e8 : (2 : Nat) ^ 8 = 256 ^ 1 := by norm_num
  simp [decodeTrade, encodeBody,
        readLE_append _ (e64 ▸ h1), readLE_append _ (e32 ▸ h2),
        readI64_append _ h3 h4, readLE_append _ (e64 ▸ h5),
        readLE_append _ (e8 ▸ h6), readLE_exact (e64 ▸ h7)]

theorem decodeHb_encodeBody (b : HbBody) (h : b.WF) :
    decodeHb (encodeBody (.hb b)) = some b := by
  have h1 : b.ts_ns < 2 ^ 64 := h
  have e64 : (2 : Nat) ^ 64 = 256 ^ 8 := by norm_num
  simp [decodeHb, encodeBody, readLE_exact (e64 ▸ h1)]

theorem decodeAck_encodeBody (b : ControlAckBody) (h : b.WF) :
    decodeAck (encodeBody (.ack b)) = some b := by
  obtain ⟨h1, h2⟩ := h
  have e32 : (2 : Nat) ^ 32 = 256 ^ 4 := by norm_num
  simp [decodeAck, encodeBody, readLE_append _ (e32 ▸ h1),
        readLE_exact (e32 ▸ h2)]

theorem crc32Step_lt {c : Nat} (h : c < 2 ^ 32) : crc32Step c < 2 ^ 32 := by
  unfold crc32Step
  have hd : c / 2 < 2 ^ 32 := lt_of_le_of_lt (Nat.div_le_self c 2) h
  split
  · exact Nat.xor_lt_two_pow hd (by norm_num)
  · exact hd

theorem crc32Entry_lt {i : Nat} (h : i < 2 ^ 32) : crc32Entry i < 2 ^ 32 := by
  unfold crc32Entry
  exact crc32Step_lt (crc32Step_lt (crc32Step_lt (crc32Step_lt
    (crc32Step_lt (crc32Step_lt (crc32Step_lt (crc32Step_lt h)))))))

theorem crc32Update_lt {c : Nat} (b : Nat) (h : c < 2 ^ 32) :
    crc32Update c b < 2 ^ 32 := by
  unfold crc32Update
  have hidx : (c % 256) ^^^ b % 256 < 2 ^ 32 := by
    have h1 : c % 256 < 2 ^ 32 :=
      lt_of_lt_of_le (Nat.mod_lt c (by norm_num)) (by norm_num)
    have h2 : b % 256 < 2 ^ 32 :=
      lt_of_lt_of_le (Nat.mod_lt b (by norm_num)) (by norm_num)
    exact Nat.xor_lt_two_pow h1 h2
  exact Nat.xor_lt_two_pow
    (lt_of_le_of_lt (Nat.div_le_self c 256) h) (crc32Entry_lt hidx)

theorem calculate_crc32_lt (data : List Nat) :
    calculate_crc32 data < 2 ^ 32 := by
  unfold calculate_crc32
  have hfold : ∀ (l : List Nat) (c : Nat), c < 2 ^ 32 →
      l.foldl crc32Update c < 2 ^ 32 := by
    intro l
    induction l with
    | nil => intro c hc; exact hc
    | cons x xs ih => intro c hc; exact ih _ (crc32Update_lt x hc)
  exact Nat.xor_lt_two_pow (hfold data 0xFFFFFFFF (by norm_num)) (by norm_num)

/-- Auxiliary: the complete encoded byte stream of `mkFrame b`. -/
theorem encode_mkFrame (b : FrameBody) :
    encode_frame (mkFrame b) =
      toLE 4 0x4D444146 ++ (toLE 2 1 ++ (toLE 2 b.msg_type ++
        (toLE 4 b.body_len ++ (toLE 4 (calculate_crc32 (encodeBody b)) ++
          encodeBody b)))) := rfl

/-- C1.  Round-trip with header correctness: decoding the encoding of a
constructed frame succeeds and returns the same body, with the header
carrying magic `0x4D444146`, version `1`, the variant's message type,
`body_len` equal to the variant's exact packed size, and `crc32` equal
to the source's CRC32 (reflected IEEE polynomial `0xEDB88320`, initial
value `0xFFFFFFFF`, final XOR `0xFFFFFFFF`) of the body bytes.  The
decoded frame agrees with `mkFrame b` on the body and on every header
field the `Frame(body)` constructor determines (the constructor leaves
`crc32` uninitialized; the decoded header carries the body CRC). -/
theorem frame_encode_decode_roundtrip (b : FrameBody) (h : b.WF) :
    decode_frame (encode_frame (mkFrame b)) =
      some ⟨⟨0x4D444146, 1, b.msg_type, b.body_len,
             calculate_crc32 (encodeBody b)⟩, b⟩ := by
  have hcrclt : calculate_crc32 (encodeBody b) < 256 ^ 4 := by
    have e : (256 : Nat) ^ 4 = 2 ^ 32 := by norm_num
    rw [e]; exact calculate_crc32_lt (encodeBody b)
  cases b with
  | l1 v =>
    have hlen : (encodeBody (FrameBody.l1 v)).length = 52 :=
      encodeBody_length (FrameBody.l1 v)
    have htake : (encodeBody (FrameBody.l1 v)).take 52 =
        encodeBody (FrameBody.l1 v) := by
      rw [← hlen]; exact List.take_length _
    simp [encode_mkFrame, decode_frame, hdr_magic, hdr_version,
          hdr_msg_type, hdr_body_len, hdr_crc, hdr_body_bytes,
          parsed_header, FrameBody.msg_type,
          FrameBody.body_len, take_toLE, drop_toLE, List.length_append,
          toLE_length, hlen, htake,
          fromLE_toLE_self (show (0x4D444146 : Nat) < 256 ^ 4 by norm_num),
          fromLE_toLE_self (show (1 : Nat) < 256 ^ 2 by norm_num),
          fromLE_toLE_self (show (52 : Nat) < 256 ^ 4 by norm_num),
          fromLE_toLE_self hcrclt, decodeL1_encodeBody v h]
  | l2 v =>
    have hlen : (encodeBody (FrameBody.l2 v)).length = 40 :=
      encodeBody_length (FrameBody.l2 v)
    have htake : (encodeBody (FrameBody.l2 v)).take 40 =
        encodeBody (FrameBody.l2 v) := by
      rw [← hlen]; exact List.take_length _
    simp [encode_mkFrame, decode_frame, hdr_magic, hdr_version,
          hdr_msg_type, hdr_body_len, hdr_crc, hdr_body_bytes,
          parsed_header, FrameBody.msg_type,
          FrameBody.body_len, take_toLE, drop_toLE, List.length_append,
          toLE_length, hlen, htake,
          fromLE_toLE_self (show (0x4D444146 : Nat) < 256 ^ 4 by norm_num),
          fromLE_toLE_self (show (1 : Nat) < 256 ^ 2 by norm_num),
          fromLE_toLE_self (show (2 : Nat) < 256 ^ 2 by norm_num),
          fromLE_toLE_self (show (40 : Nat) < 256 ^ 4 by norm_num),
          fromLE_toLE_self hcrclt, decodeL2_encodeBody v h]
  | trade v =>
    have hlen : (encodeBody (FrameBody.trade v)).length = 37 :=
      encodeBody_length (FrameBody.trade v)
    have htake : (encodeBody (FrameBody.trade v)).take 37 =
        encodeBody (FrameBody.trade v) := by
      rw [← hlen]; exact List.take_length _
    simp [encode_mkFrame, decode_frame, hdr_magic, hdr_version,
          hdr_msg_type, hdr_body_len, hdr_crc, hdr_body_bytes,
          parsed_header, FrameBody.msg_type,
          FrameBody.body_len, take_toLE, drop_toLE, List.length_append,
          toLE_length, hlen, htake,
          fromLE_toLE_self (show (0x4D444146 : Nat) < 256 ^ 4 by norm_num),
          fromLE_toLE_self (show (1 : Nat) < 256 ^ 2 by norm_num),
          fromLE_toLE_self (show (3 : Nat) < 256 ^ 2 by norm_num),
          fromLE_toLE_self (show (37 : Nat) < 256 ^ 4 by norm_num),
          fromLE_toLE_self hcrclt, decodeTrade_encodeBody v h]
  | hb v =>
    have hlen : (encodeBody (FrameBody.hb v)).length = 8 :=
      encodeBody_length (FrameBody.hb v)
    have htake : (encodeBody (FrameBody.hb v)).take 8 =
        encodeBody (FrameBody.hb v) := by
      rw [← hlen]; exact List.take_length _
    simp [encode_mkFrame, decode_frame, hdr_magic, hdr_version,
          hdr_msg_type, hdr_body_len, hdr_crc, hdr_body_bytes,
          parsed_header, FrameBody.msg_type,
          FrameBody.body_len, take_toLE, drop_toLE, List.length_append,
          toLE_length, hlen, htake,
          fromLE_toLE_self (show (0x4D444146 : Nat) < 256 ^ 4 by norm_num),
          fromLE_toLE_self (show (1 : Nat) < 256 ^ 2 by norm_num),
          fromLE_toLE_self (show (4 : Nat) < 256 ^ 2 by norm_num),
          fromLE_toLE_self (show (8 : Nat) < 256 ^ 4 by norm_num),
          fromLE_toLE_self hcrclt, decodeHb_encodeBody v h]
  | ack v =>
    have hlen : (encodeBody (FrameBody.ack v)).length = 8 :=
      encodeBody_length (FrameBody.ack v)
    have htake : (encodeBody (FrameBody.ack v)).take 8 =
        encodeBody (FrameBody.ack v) := by
      rw [← hlen]; exact List.take_length _
    simp [encode_mkFrame, decode_frame, hdr_magic, hdr_version,
          hdr_msg_type, hdr_body_len, hdr_crc, hdr_body_bytes,
          parsed_header, FrameBody.msg_type,
          FrameBody.body_len, take_toLE, drop_toLE, List.length_append,
          toLE_length, hlen, htake,
          fromLE_toLE_self (show (0x4D444146 : Nat) < 256 ^ 4 by norm_num),
          fromLE_toLE_self (show (1 : Nat) < 256 ^ 2 by norm_num),
          fromLE_toLE_self (show (5 : Nat) < 256 ^ 2 by norm_num),
          fromLE_toLE_self (show (8 : Nat) < 256 ^ 4 by norm_num),
          fromLE_toLE_self hcrclt, decodeAck_encodeBody v h]

/-- The fixed packed body size the decoder demands for each known
`msg_type`; `none` for unknown message types. -/
def variant_body_len : Nat → Option Nat
  | 1 => some 52
  | 2 => some 40
  | 3 => some 37
  | 4 => some 8
  | 5 => some 8
  | _ => none

/-- C2 counterexample.  The claim asserts that decode returns a
“need more bytes” result on truncated input that is distinct from the
“corrupt” result.  The decoder's only failure value is `none`
(`std::nullopt`): truncated input (here the empty input) and corrupt
input (here a 16-byte header whose magic is 0, with `body_len` 0) both
yield the very same result, so no distinct signal exists. -/
theorem decode_no_distinct_needmore_signal :
    decode_frame [] = none ∧
    decode_frame (List.replicate 16 0) = none ∧
    decode_frame [] = decode_frame (List.replicate 16 0) := by
  refine ⟨by decide, by decide, by decide⟩

/-- C2 amended.  Decode fails — with the single failure value `none` —
whenever the input is shorter than `16 + body_len` for the declared
`body_len`, or the magic or version mismatches, or the CRC over the
body bytes mismatches, or `body_len` disagrees with the known fixed
body size of the declared `msg_type`; the outcome is the same `none` in
every case, with no distinct “need more bytes” signal. -/
theorem decode_frame_uniform_failure (data : List Nat)
    (h : data.length < 16 + hdr_body_len data
       ∨ hdr_magic data ≠ 0x4D444146
       ∨ hdr_version data ≠ 1
       ∨ calculate_crc32 (hdr_body_bytes data) ≠ hdr_crc data
       ∨ variant_body_len (hdr_msg_type data) ≠ some (hdr_body_len data)) :
    decode_frame data = none := by
  unfold decode_frame
  split
  · rfl
  next h16 =>
    split
    · rfl
    next hmv =>
      push_neg at hmv
      split
      · rfl
      next hlen2 =>
        split
        · rfl
        next hcrc =>
          push_neg at hcrc
          rcases h with h | h | h | h | h
          · exact absurd h hlen2
          · exact absurd hmv.1 h
          · exact absurd hmv.2 h
          · exact absurd hcrc h
          · by_cases h1 : hdr_msg_type data = 1
            · rw [h1] at h
              rw [if_pos h1, if_pos]
              intro he
              exact h (by rw [he]; rfl)
            rw [if_neg h1]
            by_cases h2 : hdr_msg_type data = 2
            · rw [h2] at h
              rw [if_pos h2, if_pos]
              intro he
              exact h (by rw [he]; rfl)
            rw [if_neg h2]
            by_cases h3 : hdr_msg_type data = 3
            · rw [h3] at h
              rw [if_pos h3, if_pos]
              intro he
              exact h (by rw [he]; rfl)
            rw [if_neg h3]
            by_cases h4 : hdr_msg_type data = 4
            · rw [h4] at h
              rw [if_pos h4, if_pos]
              intro he
              exact h (by rw [he]; rfl)
            rw [if_neg h4]
            by_cases h5 : hdr_msg_type data = 5
            · rw [h5] at h
              rw [if_pos h5, if_pos]
              intro he
              exact h (by rw [he]; rfl)
            rw [if_neg h5]

/-- Witness for C2 amended at the empty (truncated) input. -/
theorem decode_frame_uniform_failure_witness :
    ((([] : List Nat)).length < 16 + hdr_body_len []
       ∨ hdr_magic [] ≠ 0x4D444146
       ∨ hdr_version [] ≠ 1
       ∨ calculate_crc32 (hdr_body_bytes []) ≠ hdr_crc []
       ∨ variant_body_len (hdr_msg_type []) ≠ some (hdr_body_len [])) ∧
    decode_frame [] = none :=
  ⟨Or.inl (by decide), decode_frame_uniform_failure [] (Or.inl (by decide))⟩

/-! ## Binary64 values and the normalizer (src/normalize/normalizer.cpp)

The raw event's price and size fields are C++ `double`s.  A finite
binary64 value is exactly a dyadic rational `m * 2^e` with `|m| < 2^53`;
the model carries that exact value.  `round53` is IEEE-754
round-to-nearest-even to a 53-bit significand (the rounding binary64
multiplication performs, in the normal range — all values in this
development are far from subnormal/overflow); `ratToDouble p q` is the
binary64 value nearest to `p/q`, i.e. the value of a decimal literal or
of a feed-supplied quotient.  These are checked against reference IEEE
double computations on the concrete inputs used below. -/

/-- Fuel-based floor of `log2` (fuel = the number itself suffices). -/
def log2fuel : Nat → Nat → Nat
  | 0, _ => 0
  | fuel + 1, n => if n ≤ 1 then 0 else log2fuel fuel (n / 2) + 1

/-- Number of binary digits of `n`. -/
def bitlen (n : Nat) : Nat := if n = 0 then 0 else log2fuel n n + 1

/-- An exact binary64 value `m * 2^e`. -/
structure Dyadic where
  m : Int
  e : Int
deriving DecidableEq, Repr

/-- Round the exact dyadic `m * 2^e` to a 53-bit significand,
round-to-nearest, ties to even: the rounding binary64 arithmetic
applies to a product in the normal range. -/
def round53 (m : Int) (e : Int) : Dyadic :=
  if m = 0 then ⟨0, 0⟩
  else
    let n := m.natAbs
    let k : Int := (bitlen n : Int) - 53
    if k ≤ 0 then ⟨m, e⟩
    else
      let K := k.toNat
      let q := n / 2 ^ K
      let r := n % 2 ^ K
      let half := 2 ^ (K - 1)
      let q' := if half < r then q + 1
                else if r < half then q
                else if q % 2 = 0 then q else q + 1
      ⟨if m < 0 then -(q' : Int) else (q' : Int), e + k⟩

/-- The binary64 value nearest to `p / q` (`q > 0`), round-to-nearest,
ties to even: the value a C++ `double` holds for a decimal literal such
as `10.01`.  The quotient is computed to 53 bits with an exact sticky
remainder, so no double rounding occurs. -/
def ratToDouble (p : Int) (q : Nat) : Dyadic :=
  if p = 0 then ⟨0, 0⟩
  else
    let n := p.natAbs
    let s := 64 + bitlen q
    let N := n * 2 ^ s
    let f := N / q
    let r := N % q
    let k := bitlen f - 53
    let q53 := f / 2 ^ k
    let rem := f % 2 ^ k
    let half := 2 ^ (k - 1)
    let up : Bool := if half < rem then true
                     else if rem < half then false
                     else if 0 < r then true
                     else decide (q53 % 2 = 1)
    let m53 := q53 + (if up then 1 else 0)
    ⟨if p < 0 then -(m53 : Int) else (m53 : Int), (k : Int) - (s : Int)⟩

/-- `static_cast<int64_t>` / `static_cast<uint64_t>` of a binary64
value: truncation toward zero (the concrete values stay in range). -/
def truncDyadic (d : Dyadic) : Int :=
  if 0 ≤ d.e then d.m * 2 ^ d.e.toNat
  else
    let n := (2 : Nat) ^ (-d.e).toNat
    if 0 ≤ d.m then ((d.m.natAbs / n : Nat) : Int)
    else -(((d.m.natAbs / n : Nat) : Int))

/-- Nearest integer to the exact dyadic value (ties up; no tie occurs
at the inputs considered). -/
def nearestDyadic (d : Dyadic) : Int :=
  if 0 ≤ d.e then d.m * 2 ^ d.e.toNat
  else
    let n : Int := 2 ^ (-d.e).toNat
    Int.ediv (2 * d.m + n) (2 * n)

/-- `static_cast<int64_t>(price * PRICE_SCALE)` from
`Normalizer::normalize_event`: binary64 multiplication by `1e8` (the
integer scale, exactly representable, so the product is the exact
integer product rounded to 53 bits) followed by truncation. -/
def toFixedPx (price : Dyadic) : Int :=
  truncDyadic (round53 (price.m * 100000000) price.e)

/-- `static_cast<uint64_t>(size * SIZE_SCALE)`: same arithmetic (the
sizes in scope are nonnegative). -/
def toFixedSz (size : Dyadic) : Int :=
  truncDyadic (round53 (size.m * 100000000) size.e)

/-- Discriminated payload of `md::RawEvent`. -/
inductive RawEventData where
  | l1 (bid_price bid_size ask_price ask_size : Dyadic)
  | l2 (side action level : Nat) (price size : Dyadic)
  | trade (trade_price trade_size : Dyadic) (aggressor_side : Nat)
deriving DecidableEq, Repr

/-- `md::RawEvent`, with the symbol already resolved to its dense id by
`symbol_registry_->get_or_add` (first new symbol receives id 1). -/
structure RawEvent where
  symbol_id : Nat
  timestamp_ns : Nat
  sequence : Nat
  data : RawEventData
deriving DecidableEq, Repr

/-- `Normalizer::normalize_event`: scale the price/size fields by `1e8`
in binary64 and cast, pack into the matching body variant. -/
def normalize_event (ev : RawEvent) : FrameBody :=
  match ev.data with
  | .l1 bp bs ap asz =>
    .l1 ⟨ev.timestamp_ns, ev.symbol_id, toFixedPx bp, (toFixedSz bs).toNat,
         toFixedPx ap, (toFixedSz asz).toNat, ev.sequence⟩
  | .l2 side action level price size =>
    .l2 ⟨ev.timestamp_ns, ev.symbol_id, side, action, level,
         toFixedPx price, (toFixedSz size).toNat, ev.sequence⟩
  | .trade p s aggr =>
    .trade ⟨ev.timestamp_ns, ev.symbol_id, toFixedPx p, (toFixedSz s).toNat,
            aggr, ev.sequence⟩

/-- Modelled from the spec's words: “multiplies price and size fields
by 10⁸ with nearest-integer conversion” — the integer nearest to the
exact product of the field's (binary64) value and `10^8`. -/
def spec_nearest_fixed (d : Dyadic) : Int :=
  nearestDyadic ⟨d.m * 100000000, d.e⟩

/-- C3 counterexample.  For a raw L1 event whose bid price is the
binary64 value of the literal `1.15`, the normalizer produces
`bid_px = 114999999` (truncation of the binary64 product
`114999999.99999998509...`), while nearest-integer conversion of the
field multiplied by `10^8` yields `115000000`: the conversion is a
truncation, not a nearest-integer conversion. -/
theorem normalize_truncates_not_nearest :
    normalize_event ⟨1, 0, 1,
      .l1 (ratToDouble 115 100) (ratToDouble 1 1)
          (ratToDouble 115 100) (ratToDouble 1 1)⟩ =
      .l1 ⟨0, 1, 114999999, 100000000, 114999999, 100000000, 1⟩ ∧
    spec_nearest_fixed (ratToDouble 115 100) = 115000000 ∧
    (114999999 : Int) ≠ 115000000 := by
  refine ⟨by decide, by decide, by decide⟩

/-- C3 amended: the normalizer converts each floating-point price and
size field by multiplying by `10^8` in binary64 arithmetic and
truncating toward zero (`static_cast`); nearest-integer conversion is
not performed, although the two agree whenever the scaled product is
exact.  In particular the spec's literal example holds: an L1 event
with bid `10.00`, bid_sz `1.0`, ask `10.01`, ask_sz `2.0` is packed
with `bid_px 1_000_000_000`, `bid_sz 100_000_000`,
`ask_px 1_001_000_000`, `ask_sz 200_000_000`. -/
theorem normalize_l1_spec_example :
    normalize_event ⟨1, 1000000000, 1,
      .l1 (ratToDouble 10 1) (ratToDouble 1 1)
          (ratToDouble 1001 100) (ratToDouble 2 1)⟩ =
      .l1 ⟨1000000000, 1, 1000000000, 100000000,
           1001000000, 200000000, 1⟩ := by decide

/-- Witness for C1 at a concrete heartbeat body. -/
theorem frame_encode_decode_roundtrip_witness :
    (FrameBody.hb ⟨12345⟩).WF ∧
    decode_frame (encode_frame (mkFrame (FrameBody.hb ⟨12345⟩))) =
      some ⟨⟨0x4D444146, 1, 4, 8,
             calculate_crc32 (encodeBody (FrameBody.hb ⟨12345⟩))⟩,
            FrameBody.hb ⟨12345⟩⟩ :=
  ⟨by decide, frame_encode_decode_roundtrip (FrameBody.hb ⟨12345⟩) (by decide)⟩

/-! ## Publisher: topic subscriptions and glob matching
(src/publisher/pub_server.cpp)

`TopicSubscription` marks a pattern containing `*` as a wildcard and
compiles it to `std::regex` after textually replacing each `*` with
`.*`.  `PubServer::matches_topic` uses `std::regex_match` (anchored
whole-string match) for wildcards and string equality otherwise.  The
regex dialect is modelled for the atoms such patterns produce: a
literal character, `.` (any character, from a literal dot in the
pattern), and `.*` (any, possibly empty, run of characters).  Strings
are modelled as their character lists. -/

/-- One atom of the compiled pattern. -/
inductive RegexAtom where
  | lit (c : Char)
  | dot
  | star
deriving DecidableEq, Repr

/-- The `TopicSubscription` constructor's translation: each `*` becomes
`.*` (atom `star`); a literal `.` is the regex any-character atom; all
other characters match themselves. -/
def globTranslate (p : List Char) : List RegexAtom :=
  p.map fun c => if c = '*' then .star else if c = '.' then .dot else .lit c

/-- Anchored matching of the compiled atoms against a topic, as
`std::regex_match` decides it: `star` consumes any (possibly empty)
run of characters. -/
def reMatch : List RegexAtom → List Char → Bool
  | [], s => s.isEmpty
  | .lit c :: as, s =>
    match s with
    | [] => false
    | d :: s2 => c == d && reMatch as s2
  | .dot :: as, s =>
    match s with
    | [] => false
    | _ :: s2 => reMatch as s2
  | .star :: as, s => s.tails.any fun t => reMatch as t

/-- Declarative anchored-regex semantics: `star` stands for an
arbitrary (possibly empty) substring. -/
inductive ReMatches : List RegexAtom → List Char → Prop where
  | nil : ReMatches [] []
  | lit (c : Char) (as : List RegexAtom) (s : List Char) :
      ReMatches as s → ReMatches (.lit c :: as) (c :: s)
  | dot (c : Char) (as : List RegexAtom) (s : List Char) :
      ReMatches as s → ReMatches (.dot :: as) (c :: s)
  | star (as : List RegexAtom) (s1 s2 : List Char) :
      ReMatches as s2 → ReMatches (.star :: as) (s1 ++ s2)

/-- Modelled from the spec's words: the same anchored matching where
each `*` stands for a NON-empty substring of the topic. -/
def reMatchNE : List RegexAtom → List Char → Bool
  | [], s => s.isEmpty
  | .lit c :: as, s =>
    match s with
    | [] => false
    | d :: s2 => c == d && reMatchNE as s2
  | .dot :: as, s =>
    match s with
    | [] => false
    | _ :: s2 => reMatchNE as s2
  | .star :: as, s =>
    match s with
    | [] => false
    | _ :: s2 => s2.tails.any fun t => reMatchNE as t

/-- `md::TopicSubscription` (pattern, wildcard flag, lossless flag). -/
structure TopicSubscription where
  pattern : List Char
  is_wildcard : Bool
  lossless : Bool
deriving DecidableEq, Repr

/-- The `TopicSubscription` constructor:
`is_wildcard = pattern.find('*') != npos`. -/
def TopicSubscription.ofPattern (pattern : List Char) (lossless : Bool) :
    TopicSubscription :=
  ⟨pattern, pattern.contains '*', lossless⟩

/-- `PubServer::matches_topic`: anchored regex match for wildcard
patterns, string equality otherwise. -/
def matches_topic (topic : List Char) (sub : TopicSubscription) : Bool :=
  if sub.is_wildcard then reMatch (globTranslate sub.pattern) topic
  else topic == sub.pattern

theorem reMatch_iff (as : List RegexAtom) (s : List Char) :
    reMatch as s = true ↔ ReMatches as s := by
  induction as generalizing s with
  | nil =>
    simp only [reMatch, List.isEmpty_iff]
    constructor
    · rintro rfl; exact .nil
    · rintro h; cases h; rfl
  | cons a as ih =>
    cases a with
    | lit c =>
      cases s with
      | nil =>
        simp only [reMatch]
        constructor
        · intro h; cases h
        · intro h; cases h
      | cons d s2 =>
        simp only [reMatch, Bool.and_eq_true, beq_iff_eq]
        constructor
        · rintro ⟨rfl, h⟩; exact .lit c as s2 ((ih s2).mp h)
        · intro h; cases h with
          | lit _ _ _ h2 => exact ⟨rfl, (ih s2).mpr h2⟩
    | dot =>
      cases s with
      | nil =>
        simp only [reMatch]
        constructor
        · intro h; cases h
        · intro h; cases h
      | cons d s2 =>
        simp only [reMatch]
        constructor
        · intro h; exact .dot d as s2 ((ih s2).mp h)
        · intro h; cases h with
          | dot _ _ _ h2 => exact (ih s2).mpr h2
    | star =>
      simp only [reMatch, List.any_eq_true]
      constructor
      · rintro ⟨t, ht, hm⟩
        obtain ⟨s1, rfl⟩ : t <:+ s := (List.mem_tails t s).mp ht
        exact .star as s1 t ((ih t).mp hm)
      · intro h
        cases h with
        | star _ s1 s2 h2 =>
          exact ⟨s2, (List.mem_tails s2 _).mpr ⟨s1, rfl⟩, (ih s2).mpr h2⟩

/-- C5 counterexample.  The code's compiled `.*` matches the empty
substring: pattern `a*` matches topic `a` (`matches_topic` is true),
while the claim's reading — each `*` stands for a NON-empty substring —
rejects it (`reMatchNE` is false).  The claimed matching rule is
therefore false of the code at pattern `a*`, topic `a`. -/
theorem glob_star_matches_empty :
    matches_topic "a".data (TopicSubscription.ofPattern "a*".data false)
      = true ∧
    reMatchNE (globTranslate "a*".data) "a".data = false := by
  refine ⟨by decide, by decide⟩

/-- C5 amended.  A literal pattern (no `*`) matches a topic exactly by
string equality, and a pattern containing `*` matches exactly when the
anchored regular expression obtained by replacing each `*` with `.*`
matches the whole topic, where each `*` stands for an arbitrary —
possibly empty — substring of the topic (and a literal `.` in the
pattern matches any single character, per regex semantics). -/
theorem matches_topic_glob_semantics (pattern topic : List Char)
    (lossless : Bool) :
    (pattern.contains '*' = false →
      (matches_topic topic (TopicSubscription.ofPattern pattern lossless)
        = true ↔ topic = pattern)) ∧
    (pattern.contains '*' = true →
      (matches_topic topic (TopicSubscription.ofPattern pattern lossless)
        = true ↔ ReMatches (globTranslate pattern) topic)) := by
  constructor
  · intro hw
    unfold matches_topic TopicSubscription.ofPattern
    rw [hw]
    simp
  · intro hw
    unfold matches_topic TopicSubscription.ofPattern
    rw [hw]
    simp only [if_pos]
    exact reMatch_iff _ _

/-- Witness for C5 amended: `trade.*` matches `trade.ETHUSDT` under the
declarative possibly-empty-star semantics. -/
theorem matches_topic_glob_semantics_witness :
    ReMatches (globTranslate "trade.*".data) "trade.ETHUSDT".data :=
  ((matches_topic_glob_semantics "trade.*".data "trade.ETHUSDT".data
      false).2 (by decide)).mp (by decide)

/-! ## Publisher: per-client state machine
(src/publisher/pub_server.cpp, `ClientConnection`)

A client carries the `running_` and `authenticated_` flags, its
subscription list, and the bounded outbound queue.  The global
`MetricsCollector` counters the client code increments are modelled as
per-client counter fields.  `stop()` closes the socket, modelled by the
`socket_closed` flag. -/

/-- Per-client state of `ClientConnection` (flags, subscriptions,
outbound queue of (topic, frame), counters). -/
structure ClientState where
  running : Bool
  authenticated : Bool
  socket_closed : Bool
  subscriptions : List TopicSubscription
  send_queue : List (List Char × Frame)
  frames_dropped : Nat
  ctr_backpressure : Nat
  ctr_queue_full : Nat
  ctr_auth_failures : Nat
deriving DecidableEq, Repr

/-- `ClientConnection::MAX_QUEUE_SIZE`. -/
def MAX_QUEUE_SIZE : Nat := 10000

/-- `ClientConnection::send_frame`: drop silently when not running or
not authenticated; when the queue is at capacity, drop and count —
`backpressure` if any subscription is lossless, `queue_full` otherwise;
else encode and enqueue. -/
def send_frame (topic : List Char) (f : Frame) (st : ClientState) :
    ClientState :=
  if ¬ st.running ∨ ¬ st.authenticated then st
  else if MAX_QUEUE_SIZE ≤ st.send_queue.length then
    if st.subscriptions.any (·.lossless) then
      { st with frames_dropped := st.frames_dropped + 1,
                ctr_backpressure := st.ctr_backpressure + 1 }
    else
      { st with frames_dropped := st.frames_dropped + 1,
                ctr_queue_full := st.ctr_queue_full + 1 }
  else { st with send_queue := st.send_queue ++ [(topic, f)] }

/-- `ClientConnection::send_control_ack`: build a `ControlAck` frame
and pass it to `send_frame` under topic `"control"`. -/
def send_control_ack (code : Nat) (st : ClientState) : ClientState :=
  send_frame "control".data (mkFrame (.ack ⟨code, 0⟩)) st

/-- `ClientConnection::stop`: clear `running_`, close the socket. -/
def client_stop (st : ClientState) : ClientState :=
  if st.running then { st with running := false, socket_closed := true }
  else st

/-- The parsed control messages `process_control_message` recognizes;
`other` covers unknown ops and JSON parse failures (both ack 400). -/
inductive ControlMsg where
  | auth (token : String)
  | subscribe (topics : List (List Char)) (lossless : Bool)
  | unsubscribe (topics : List (List Char))
  | other
deriving DecidableEq, Repr

/-- `ClientConnection::process_control_message` against the configured
token: `auth` matches → set `authenticated_`, ack 200; mismatch → ack
401, count `publisher_auth_failures_total`, `stop()`; `subscribe`
unauthenticated → ack 401; authenticated → append subscriptions, ack
200; `unsubscribe` → ack 200 (patterns are not removed); anything
else → ack 400. -/
def process_control_message (auth_token : String) (msg : ControlMsg)
    (st : ClientState) : ClientState :=
  match msg with
  | .auth token =>
    if token = auth_token then
      send_control_ack 200 { st with authenticated := true }
    else
      client_stop
        { send_control_ack 401 st with
            ctr_auth_failures := (send_control_ack 401 st).ctr_auth_failures + 1 }
  | .subscribe topics lossless =>
    if ¬ st.authenticated then send_control_ack 401 st
    else
      send_control_ack 200
        { st with subscriptions := st.subscriptions ++
            topics.map fun p => TopicSubscription.ofPattern p lossless }
  | .unsubscribe _ => send_control_ack 200 st
  | .other => send_control_ack 400 st

/-- A freshly accepted connection: `running` after `start()`,
unauthenticated, nothing queued. -/
def freshClient : ClientState :=
  ⟨true, false, false, [], [], 0, 0, 0, 0⟩

/-- C4 evaluation at the failing input.  A fresh (UNAUTH) client that
sends `subscribe` has a ControlAck 401 generated, but `send_frame`
returns early for unauthenticated clients, so nothing is ever enqueued:
the client never receives the 401.  A wrong-token `auth` likewise
produces no delivered 401, though the socket is closed and
`publisher_auth_failures_total` is counted; a correct `auth` does
deliver its 200 ack (the flag is set before the ack is sent).  The
claim (and spec) say the client receives ControlAck 401 in the first
two cases; the code delivers nothing. -/
theorem unauth_acks_never_delivered :
    (process_control_message "secret" (.subscribe ["l1.*".data] false)
        freshClient).send_queue = [] ∧
    (process_control_message "secret" (.auth "wrong")
        freshClient).send_queue = [] ∧
    (process_control_message "secret" (.auth "wrong")
        freshClient).socket_closed = true ∧
    (process_control_message "secret" (.auth "wrong")
        freshClient).ctr_auth_failures = 1 ∧
    (process_control_message "secret" (.auth "secret")
        freshClient).send_queue =
      [("control".data, mkFrame (.ack ⟨200, 0⟩))] := by
  refine ⟨by decide, by decide, by decide, by decide, by decide⟩

/-- C6.  `send_frame` on a running, authenticated client: when the
outbound queue is at capacity (10 000) the frame is dropped without
enqueueing (the producer is never blocked — `send_frame` always returns
with the queue unchanged), counted as a backpressure drop when any
subscription is lossless and as a queue-full drop otherwise; below
capacity the frame is appended; consequently the queue never exceeds
the capacity. -/
theorem send_frame_backpressure (st : ClientState) (topic : List Char)
    (f : Frame) (hrun : st.running = true)
    (hauth : st.authenticated = true) :
    (MAX_QUEUE_SIZE ≤ st.send_queue.length →
      (send_frame topic f st).send_queue = st.send_queue ∧
      (send_frame topic f st).frames_dropped = st.frames_dropped + 1 ∧
      (st.subscriptions.any (·.lossless) = true →
        (send_frame topic f st).ctr_backpressure = st.ctr_backpressure + 1 ∧
        (send_frame topic f st).ctr_queue_full = st.ctr_queue_full) ∧
      (st.subscriptions.any (·.lossless) = false →
        (send_frame topic f st).ctr_queue_full = st.ctr_queue_full + 1 ∧
        (send_frame topic f st).ctr_backpressure = st.ctr_backpressure)) ∧
    (st.send_queue.length < MAX_QUEUE_SIZE →
      (send_frame topic f st).send_queue = st.send_queue ++ [(topic, f)]) ∧
    (st.send_queue.length ≤ MAX_QUEUE_SIZE →
      (send_frame topic f st).send_queue.length ≤ MAX_QUEUE_SIZE) := by
  unfold send_frame
  rw [hrun, hauth]
  simp only [not_true, or_self, if_false]
  refine ⟨?_, ?_, ?_⟩
  · intro hfull
    rw [if_pos hfull]
    by_cases hl : st.subscriptions.any (·.lossless) = true
    · rw [if_pos hl]
      refine ⟨rfl, rfl, fun _ => ⟨rfl, rfl⟩, fun hn => ?_⟩
      rw [hl] at hn
      cases hn
    · rw [if_neg hl]
      refine ⟨rfl, rfl, fun hy => ?_, fun _ => ⟨rfl, rfl⟩⟩
      exact absurd hy hl
  · intro hlt
    rw [if_neg (by omega)]
  · intro hle
    by_cases hfull : MAX_QUEUE_SIZE ≤ st.send_queue.length
    · rw [if_pos hfull]
      split <;> simpa using hle
    · rw [if_neg hfull]
      simp only [List.length_append, List.length_cons, List.length_nil]
      omega

/-- A client with a lossy subscription whose queue holds exactly
10 000 frames. -/
def fullClient : ClientState :=
  ⟨true, true, false, [TopicSubscription.ofPattern "t".data false],
   List.replicate 10000 ("t".data, mkFrame (.hb ⟨0⟩)), 0, 0, 0, 0⟩

/-- Witness for C6 at `fullClient`. -/
theorem send_frame_backpressure_witness :
    (MAX_QUEUE_SIZE ≤ fullClient.send_queue.length →
      (send_frame "t".data (mkFrame (.hb ⟨0⟩)) fullClient).send_queue =
        fullClient.send_queue ∧
      (send_frame "t".data (mkFrame (.hb ⟨0⟩)) fullClient).frames_dropped =
        fullClient.frames_dropped + 1 ∧
      (fullClient.subscriptions.any (·.lossless) = true →
        (send_frame "t".data (mkFrame (.hb ⟨0⟩)) fullClient).ctr_backpressure =
          fullClient.ctr_backpressure + 1 ∧
        (send_frame "t".data (mkFrame (.hb ⟨0⟩)) fullClient).ctr_queue_full =
          fullClient.ctr_queue_full) ∧
      (fullClient.subscriptions.any (·.lossless) = false →
        (send_frame "t".data (mkFrame (.hb ⟨0⟩)) fullClient).ctr_queue_full =
          fullClient.ctr_queue_full + 1 ∧
        (send_frame "t".data (mkFrame (.hb ⟨0⟩)) fullClient).ctr_backpressure =
          fullClient.ctr_backpressure)) ∧
    (fullClient.send_queue.length < MAX_QUEUE_SIZE →
      (send_frame "t".data (mkFrame (.hb ⟨0⟩)) fullClient).send_queue =
        fullClient.send_queue ++ [("t".data, mkFrame (.hb ⟨0⟩))]) ∧
    (fullClient.send_queue.length ≤ MAX_QUEUE_SIZE →
      (send_frame "t".data (mkFrame (.hb ⟨0⟩))
          fullClient).send_queue.length ≤ MAX_QUEUE_SIZE) :=
  send_frame_backpressure fullClient "t".data (mkFrame (.hb ⟨0⟩)) rfl rfl

/-! ## Publisher: client list, heartbeat purge, publish
(src/publisher/pub_server.cpp, `PubServer`)

`accept_connections` appends each new connection to `clients_`;
`heartbeat_loop` once per second erases every entry that is not
authenticated and then sends heartbeats to the remaining authenticated
clients; `publish` snapshots `clients_` and sends only to authenticated
members (further filtered by subscription match — the model's delivery
list is the superset `send_frame` is invoked on).  Connections are
identified by id; the `authenticated_` flag lives on the connection
object and can change while the object is no longer in the list. -/

/-- Events acting on the server's client list. -/
inductive PEvent where
  | accept (cid : Nat)
  | auth (cid : Nat)
  | tick
  | publish
deriving DecidableEq, Repr

/-- Server-side state: the `clients_` vector and the set of connection
ids whose `authenticated_` flag is set. -/
structure ServerState where
  clients : List Nat
  authed : List Nat
deriving DecidableEq, Repr

/-- One event step; the second component lists the clients a frame or
heartbeat is handed to during the event. -/
def stepEvent (s : ServerState) : PEvent → ServerState × List Nat
  | .accept c => (⟨s.clients ++ [c], s.authed⟩, [])
  | .auth c =>
    (⟨s.clients, if c ∈ s.authed then s.authed else s.authed ++ [c]⟩, [])
  | .tick =>
    let kept := s.clients.filter (· ∈ s.authed)
    (⟨kept, s.authed⟩, kept.filter (· ∈ s.authed))
  | .publish => (s, s.clients.filter (· ∈ s.authed))

/-- Run a sequence of events, accumulating every delivery. -/
def runEvents (s : ServerState) : List PEvent → ServerState × List Nat
  | [] => (s, [])
  | e :: rest =>
    let p := stepEvent s e
    let q := runEvents p.1 rest
    (q.1, p.2 ++ q.2)

theorem runEvents_not_mem (s : ServerState) (c : Nat)
    (hc : c ∉ s.clients) (evs : List PEvent)
    (hacc : PEvent.accept c ∉ evs) :
    c ∉ (runEvents s evs).1.clients ∧ c ∉ (runEvents s evs).2 := by
  induction evs generalizing s with
  | nil => simp [runEvents, hc]
  | cons e rest ih =>
    have hacc1 : PEvent.accept c ≠ e := by
      intro h; exact hacc (h ▸ List.mem_cons_self _ _)
    have hacc2 : PEvent.accept c ∉ rest := by
      intro h; exact hacc (List.mem_cons_of_mem _ h)
    have hstep : c ∉ (stepEvent s e).1.clients ∧ c ∉ (stepEvent s e).2 := by
      cases e with
      | accept d =>
        have hdc : d ≠ c := by
          intro h; exact hacc1 (by rw [h])
        constructor
        · simp only [stepEvent, List.mem_append, List.mem_singleton]
          rintro (h | h)
          · exact hc h
          · exact hdc h.symm
        · simp [stepEvent]
      | auth d =>
        exact ⟨hc, by simp [stepEvent]⟩
      | tick =>
        constructor
        · intro h
          exact hc (List.mem_of_mem_filter h)
        · intro h
          exact hc (List.mem_of_mem_filter (List.mem_of_mem_filter h))
      | publish =>
        constructor
        · exact hc
        · intro h
          exact hc (List.mem_of_mem_filter h)
    have hrest := ih (stepEvent s e).1 hstep.1 hacc2
    constructor
    · simpa [runEvents] using hrest.1
    · simp only [runEvents, List.mem_append]
      rintro (h | h)
      · exact hstep.2 h
      · exact hrest.2 h

/-- C10.  The heartbeat loop removes every connection that is not yet
authenticated; no later event re-adds it (only a fresh `accept` ever
appends, and a connection object is accepted once).  Hence a client
that was still unauthenticated when a heartbeat tick fired is absent
from the client list from then on — even if it authenticates later —
and is handed no published frame and no heartbeat, while nothing closes
its socket in these events. -/
theorem unauth_client_purged_forever (s : ServerState) (c : Nat)
    (hc : c ∉ s.authed) (evs : List PEvent)
    (hacc : PEvent.accept c ∉ evs) :
    c ∉ (stepEvent s .tick).1.clients ∧
    c ∉ (runEvents (stepEvent s .tick).1 evs).1.clients ∧
    c ∉ (runEvents (stepEvent s .tick).1 evs).2 := by
  have hout : c ∉ (stepEvent s .tick).1.clients := by
    intro h
    simp only [stepEvent] at h
    exact hc (of_decide_eq_true (List.mem_filter.mp h).2)
  refine ⟨hout, ?_, ?_⟩
  · exact (runEvents_not_mem _ c hout evs hacc).1
  · exact (runEvents_not_mem _ c hout evs hacc).2

/-- Witness for C10: connection 7 accepted but unauthenticated at the
tick; it then authenticates and a publish occurs — it is in the list no
more and receives nothing. -/
theorem unauth_client_purged_forever_witness :
    7 ∉ (stepEvent ⟨[7], []⟩ .tick).1.clients ∧
    7 ∉ (runEvents (stepEvent ⟨[7], []⟩ .tick).1
          [.auth 7, .publish]).1.clients ∧
    7 ∉ (runEvents (stepEvent ⟨[7], []⟩ .tick).1
          [.auth 7, .publish]).2 :=
  unauth_client_purged_forever ⟨[7], []⟩ 7 (by decide)
    [.auth 7, .publish] (by decide)

/-! ## Recorder (src/recorder/recorder.cpp)

The recorder's per-segment state: byte count of the data file
(including the 32-byte `MdfHeader` written by `open_new_files`), frame
count, frames since the last index entry, and the index file contents
(16 bytes per `(ts, offset)` entry).  `write_frame` appends the
encoded frame (`16 + body_len` bytes), and every `index_interval`
frames appends an index entry carrying the triggering frame's
timestamp and its byte offset (the file size before the append).
In-place header rewrites (`update_mdf_header`) do not change sizes. -/

/-- The timestamp the recorder and replayer extract from a frame body
(`std::visit` of `body.ts_ns`; `ControlAckBody` has no such field and
that instantiation is never exercised by recorded market data — it is
modelled as 0). -/
def FrameBody.ts : FrameBody → Nat
  | .l1 b => b.ts_ns
  | .l2 b => b.ts_ns
  | .trade b => b.ts_ns
  | .hb b => b.ts_ns
  | .ack _ => 0

/-- Encoded size of a frame: `sizeof(FrameHeader) + body_len`. -/
def encSize (b : FrameBody) : Nat := 16 + b.body_len

/-- Total encoded size of a list of frames. -/
def encoded_sizes (fs : List FrameBody) : Nat := (fs.map encSize).sum

/-- The recorder's current-segment state. -/
structure RecState where
  file_bytes : Nat
  frame_count : Nat
  frames_since_last_index : Nat
  index_entries : List (Nat × Nat)
  idx_bytes : Nat
  start_ts : Nat
deriving DecidableEq, Repr

/-- `Recorder::open_new_files`: write the 32-byte header, reset the
counters. -/
def open_new_files (ts : Nat) : RecState := ⟨32, 0, 0, [], 0, ts⟩

/-- `Recorder::write_frame`: append the encoded frame, and when
`frames_since_last_index` reaches `index_interval`, append an index
entry `(frame's ts, offset of this frame = bytes before the append)`
and reset the counter. -/
def write_frame (index_interval : Nat) (st : RecState) (b : FrameBody) :
    RecState :=
  if index_interval ≤ st.frames_since_last_index + 1 then
    ⟨st.file_bytes + encSize b, st.frame_count + 1, 0,
     st.index_entries ++ [(b.ts, st.file_bytes)],
     st.idx_bytes + 16, st.start_ts⟩
  else
    ⟨st.file_bytes + encSize b, st.frame_count + 1,
     st.frames_since_last_index + 1,
     st.index_entries, st.idx_bytes, st.start_ts⟩

/-- Append a batch of frames (the recording thread's loop). -/
def write_frames (index_interval : Nat) (st : RecState)
    (fs : List FrameBody) : RecState :=
  fs.foldl (write_frame index_interval) st

/-- Adjacency relation claimed for index entries. -/
def IndexAdj (p q : Nat × Nat) : Prop := p.1 ≤ q.1 ∧ p.2 < q.2

theorem encoded_sizes_append (fs : List FrameBody) (b : FrameBody) :
    encoded_sizes (fs ++ [b]) = encoded_sizes fs + encSize b := by
  simp [encoded_sizes, List.map_append, List.sum_append]

/-- Combined segment invariant after writing `fs` into a fresh segment:
data size, index size, index adjacency, entry provenance, and the
position of the first index entry (`k = max index_interval 1` is the
frame count that triggers an entry; `index_interval = 0` triggers on
every frame). -/
theorem write_frames_inv (interval t0 : Nat) (fs : List FrameBody)
    (hmono : fs.Pairwise (fun a b => a.ts ≤ b.ts)) :
    (write_frames interval (open_new_files t0) fs).file_bytes =
      32 + encoded_sizes fs ∧
    (write_frames interval (open_new_files t0) fs).idx_bytes =
      16 * (write_frames interval (open_new_files t0)
              fs).index_entries.length ∧
    List.Chain' IndexAdj
      (write_frames interval (open_new_files t0) fs).index_entries ∧
    (∀ e ∈ (write_frames interval (open_new_files t0) fs).index_entries,
      e.2 < (write_frames interval (open_new_files t0) fs).file_bytes ∧
      ∃ a ∈ fs, e.1 = a.ts) ∧
    ((write_frames interval (open_new_files t0) fs).index_entries = [] →
      (write_frames interval (open_new_files t0)
          fs).frames_since_last_index = fs.length ∧
      fs.length < max interval 1) ∧
    (∀ e, (write_frames interval (open_new_files t0)
            fs).index_entries.head? = some e →
      e.2 = 32 + encoded_sizes (fs.take (max interval 1 - 1)) ∧
      max interval 1 - 1 ≤ fs.length) := by
  induction fs using List.reverseRecOn with
  | nil =>
    refine ⟨rfl, rfl, ?_, ?_, ?_, ?_⟩
    · exact List.chain'_nil
    · intro e he; cases he
    · intro _
      refine ⟨rfl, ?_⟩
      simp only [List.length_nil]
      exact Nat.lt_of_lt_of_le Nat.zero_lt_one (le_max_right interval 1)
    · intro e he; cases he
  | append_singleton fs b ih =>
    have hmono' : fs.Pairwise (fun a b => a.ts ≤ b.ts) :=
      (List.pairwise_append.mp hmono).1
    have hle : ∀ a ∈ fs, a.ts ≤ b.ts := by
      intro a ha
      exact (List.pairwise_append.mp hmono).2.2 a ha b (List.mem_singleton.mpr rfl)
    obtain ⟨hA, hB, hC, hD, hE, hF⟩ := ih hmono'
    have hfold : write_frames interval (open_new_files t0) (fs ++ [b]) =
        write_frame interval
          (write_frames interval (open_new_files t0) fs) b := by
      simp [write_frames, List.foldl_append]
    set st := write_frames interval (open_new_files t0) fs with hst
    rw [hfold]
    unfold write_frame
    have hpos : 0 < encSize b := by unfold encSize; omega
    split
    next htrig =>
      -- an index entry is appended for frame `b`
      dsimp only
      refine ⟨?_, ?_, ?_, ?_, ?_, ?_⟩
      · simp only [encoded_sizes_append]
        omega
      · simp only [List.length_append, List.length_singleton]
        omega
      · refine List.Chain'.append hC (List.chain'_singleton _) ?_
        intro x hx y hy
        have hx' : x ∈ st.index_entries := List.mem_of_mem_getLast? hx
        have hy' : (b.ts, st.file_bytes) = y := by simpa using hy
        obtain ⟨hxo, a, ha, hats⟩ := hD x hx'
        subst hy'
        constructor
        · rw [hats]; exact hle a ha
        · exact hxo
      · intro e he
        rcases List.mem_append.mp he with he | he
        · obtain ⟨hxo, a, ha, hats⟩ := hD e he
          exact ⟨by omega, a, List.mem_append_left _ ha, hats⟩
        · have : e = (b.ts, st.file_bytes) := by simpa using he
          subst this
          exact ⟨by simp; omega, b, List.mem_append_right _ (by simp), rfl⟩
      · intro hnil
        exact absurd hnil (by simp)
      · intro e he
        by_cases hemp : st.index_entries = []
        · rw [hemp] at he
          simp only [List.nil_append, List.head?_cons, Option.some_inj] at he
          obtain ⟨hsince, hlen⟩ := hE hemp
          rw [hemp] at hB
          -- the entry is created exactly at frame count `max interval 1`
          have hklen : fs.length = max interval 1 - 1 := by
            rw [hsince] at htrig
            omega
          have htake : (fs ++ [b]).take (max interval 1 - 1) = fs := by
            rw [← hklen]
            exact List.take_left fs [b]
          rw [htake, ← he]
          exact ⟨hA.symm ▸ rfl, by simp; omega⟩
        · have hhd : (st.index_entries ++ [(b.ts, st.file_bytes)]).head? =
              st.index_entries.head? :=
            List.head?_append_of_ne_nil _ hemp
          rw [hhd] at he
          obtain ⟨hoff, hklen⟩ := hF e he
          have htake : (fs ++ [b]).take (max interval 1 - 1) =
              fs.take (max interval 1 - 1) :=
            List.take_append_of_le_length hklen
          rw [htake]
          exact ⟨hoff, by simp; omega⟩
    next htrig =>
      -- no index entry for frame `b`
      dsimp only
      refine ⟨?_, hB, hC, ?_, ?_, ?_⟩
      · simp only [encoded_sizes_append]
        omega
      · intro e he
        obtain ⟨hxo, a, ha, hats⟩ := hD e he
        exact ⟨by omega, a, List.mem_append_left _ ha, hats⟩
      · intro hnil
        obtain ⟨hsince, hlen⟩ := hE hnil
        constructor
        · simp only [List.length_append, List.length_singleton]
          omega
        · simp only [List.length_append, List.length_singleton]
          omega
      · intro e he
        obtain ⟨hoff, hklen⟩ := hF e he
        have htake : (fs ++ [b]).take (max interval 1 - 1) =
            fs.take (max interval 1 - 1) :=
          List.take_append_of_le_length hklen
        rw [htake]
        exact ⟨hoff, by simp; omega⟩

/-- C7 counterexample.  With `index_interval = 2`, after two heartbeat
frames (24 encoded bytes each) the first — and only — index entry is
`(6, 56)`: its offset `56 = 32 + 24` points at the second frame (the
one that triggered the entry), not just past the 32-byte segment
header.  The first index entry points just past the header only when
`index_interval ≤ 1`. -/
theorem recorder_first_index_entry_offset :
    (write_frames 2 (open_new_files 0)
        [.hb ⟨5⟩, .hb ⟨6⟩]).index_entries = [(6, 56)] ∧
    (56 : Nat) ≠ 32 := by
  refine ⟨by decide, by decide⟩

/-- C7 amended.  After the recorder has appended frames of total
encoded size `B` to a fresh segment whose input is weakly
time-ordered, the data file size is exactly `32 + B`; the index file
size is a multiple of 16 bytes; for every two adjacent index entries
`(t1,o1),(t2,o2)`, `t1 ≤ t2` and `o1 < o2`; and the first index
entry's offset points at the frame that triggered it:
`32 +` the encoded size of the first `index_interval - 1` frames
(which is just past the 32-byte segment header exactly when
`index_interval ≤ 1`). -/
theorem recorder_segment_invariants (interval t0 : Nat)
    (fs : List FrameBody)
    (hmono : fs.Pairwise (fun a b => a.ts ≤ b.ts)) :
    (write_frames interval (open_new_files t0) fs).file_bytes =
      32 + encoded_sizes fs ∧
    (write_frames interval (open_new_files t0) fs).idx_bytes % 16 = 0 ∧
    List.Chain' IndexAdj
      (write_frames interval (open_new_files t0) fs).index_entries ∧
    (∀ e, (write_frames interval (open_new_files t0)
            fs).index_entries.head? = some e →
      e.2 = 32 + encoded_sizes (fs.take (max interval 1 - 1))) := by
  obtain ⟨hA, hB, hC, _, _, hF⟩ := write_frames_inv interval t0 fs hmono
  refine ⟨hA, by omega, hC, fun e he => (hF e he).1⟩

/-- Witness for C7 amended: `index_interval = 2`, two heartbeats. -/
theorem recorder_segment_invariants_witness :
    (write_frames 2 (open_new_files 0)
        [FrameBody.hb ⟨5⟩, FrameBody.hb ⟨6⟩]).file_bytes =
      32 + encoded_sizes [FrameBody.hb ⟨5⟩, FrameBody.hb ⟨6⟩] ∧
    (write_frames 2 (open_new_files 0)
        [FrameBody.hb ⟨5⟩, FrameBody.hb ⟨6⟩]).idx_bytes % 16 = 0 ∧
    List.Chain' IndexAdj
      (write_frames 2 (open_new_files 0)
        [FrameBody.hb ⟨5⟩, FrameBody.hb ⟨6⟩]).index_entries ∧
    (∀ e, (write_frames 2 (open_new_files 0)
            [FrameBody.hb ⟨5⟩, FrameBody.hb ⟨6⟩]).index_entries.head? =
          some e →
      e.2 = 32 + encoded_sizes
        (([FrameBody.hb ⟨5⟩, FrameBody.hb ⟨6⟩]).take (max 2 1 - 1))) :=
  recorder_segment_invariants 2 0 [FrameBody.hb ⟨5⟩, FrameBody.hb ⟨6⟩]
    (by decide)

/-! ## Replayer: session start validation (src/replay/replayer.cpp)

`Replayer::start_session` validates its arguments and throws before any
session is created; afterwards it locates data files, opens them, seeks,
and only then registers the session.  The filesystem-dependent steps are
modelled by environment flags: whether `find_files_for_timestamp`
finds a data file, whether both files open, and whether the initial
seek succeeds.  The session table is the list of registered ids; the
rate multiplier is a `double`, modelled as an exact rational (the
validation only compares it). -/

/-- Outcome flags of the filesystem-dependent steps of
`start_session`. -/
structure ReplayEnv where
  find_ok : Bool
  open_ok : Bool
  seek_ok : Bool
deriving DecidableEq, Repr

/-- `Replayer::MAX_CONCURRENT_SESSIONS`. -/
def MAX_CONCURRENT_SESSIONS : Nat := 10

/-- `Replayer::start_session`: the checks in source order; a thrown
exception is the `none` result and leaves the session table unchanged;
success registers and returns the generated id. -/
def start_session (env : ReplayEnv) (sessions : List String)
    (from_ts to_ts : Nat) (topics : List (List Char)) (rate : ℚ)
    (new_id : String) : Option String × List String :=
  if to_ts ≤ from_ts then (none, sessions)
  else if rate ≤ 0 ∨ 100 < rate then (none, sessions)
  else if topics = [] then (none, sessions)
  else if MAX_CONCURRENT_SESSIONS ≤ sessions.length then (none, sessions)
  else if env.find_ok = false then (none, sessions)
  else if env.open_ok = false then (none, sessions)
  else if env.seek_ok = false then (none, sessions)
  else (some new_id, sessions ++ [new_id])

/-- C8 counterexample.  With valid arguments (`from < to`, rate 1,
one topic, empty session table) and a data file found, but a file-open
failure, `start_session` still fails — though none of the claim's
enumerated conditions holds — so the claimed “exactly when” is false
(and similarly for a seek failure). -/
theorem start_session_fails_beyond_enumerated_conditions :
    (start_session ⟨true, false, true⟩ [] 0 10 ["a".data] 1 "rpl_1").1
      = none ∧
    (start_session ⟨true, false, true⟩ [] 0 10 ["a".data] 1 "rpl_1").2
      = [] ∧
    ¬ ((10 : Nat) ≤ 0 ∨ ((1 : ℚ) ≤ 0 ∨ (100 : ℚ) < 1) ∨
       (["a".data] : List (List Char)) = [] ∨
       MAX_CONCURRENT_SESSIONS ≤ ([] : List String).length ∨
       (⟨true, false, true⟩ : ReplayEnv).find_ok = false) := by
  refine ⟨?_, ?_, ?_⟩
  · rfl
  · rfl
  · intro h
    rcases h with h | h | h | h | h
    · omega
    · rcases h with h | h <;> norm_num at h
    · cases h
    · simp [MAX_CONCURRENT_SESSIONS] at h
    · cases h

/-- C8 amended.  `start_session` reports a synchronous failure and
leaves the session table unchanged exactly when `from ≥ to`, or
`rate ≤ 0` or `rate > 100`, or the topic list is empty, or the active
session count is at least `MAX_CONCURRENT_SESSIONS` (10), or no data
files are found, or the located files cannot be opened, or the initial
index seek fails; otherwise it registers and returns the freshly
generated session id. -/
theorem start_session_validation (env : ReplayEnv)
    (sessions : List String) (from_ts to_ts : Nat)
    (topics : List (List Char)) (rate : ℚ) (new_id : String) :
    ((start_session env sessions from_ts to_ts topics rate new_id).1
        = none ↔
      to_ts ≤ from_ts ∨ (rate ≤ 0 ∨ 100 < rate) ∨ topics = [] ∨
      MAX_CONCURRENT_SESSIONS ≤ sessions.length ∨
      env.find_ok = false ∨ env.open_ok = false ∨
      env.seek_ok = false) ∧
    ((start_session env sessions from_ts to_ts topics rate new_id).1
        = none →
      (start_session env sessions from_ts to_ts topics rate new_id).2
        = sessions) ∧
    ((start_session env sessions from_ts to_ts topics rate new_id).1
        ≠ none →
      (start_session env sessions from_ts to_ts topics rate new_id).1
        = some new_id ∧
      (start_session env sessions from_ts to_ts topics rate new_id).2
        = sessions ++ [new_id]) := by
  unfold start_session
  split_ifs with h1 h2 h3 h4 h5 h6 h7 <;> simp_all

/-- Witness for C8 amended: a fully valid start registers and returns
the fresh id. -/
theorem start_session_validation_witness :
    (start_session ⟨true, true, true⟩ [] 0 10 ["a".data] 1 "rpl_1").1
      = some "rpl_1" ∧
    (start_session ⟨true, true, true⟩ [] 0 10 ["a".data] 1 "rpl_1").2
      = ["rpl_1"] := by
  have hv := start_session_validation ⟨true, true, true⟩ [] 0 10
    ["a".data] 1 "rpl_1"
  have hne : (start_session ⟨true, true, true⟩ [] 0 10
      ["a".data] 1 "rpl_1").1 ≠ none := by
    rw [Ne, hv.1]
    intro h
    rcases h with h | h | h | h | h | h | h
    · omega
    · rcases h with h | h <;> norm_num at h
    · cases h
    · simp [MAX_CONCURRENT_SESSIONS] at h
    · cases h
    · cases h
    · cases h
  have h1 := (hv.2.2 hne).1
  have h2 := (hv.2.2 hne).2
  exact ⟨h1, by rw [h2]; rfl⟩

/-! ## Replayer: playback pacing (src/replay/replayer.cpp)

`playback_thread` reads the next frame from the segment stream
(`read_next_frame` advances the file cursor), checks the end
timestamp, computes the inter-arrival delay from the previous frame's
timestamp, and when the scaled delay exceeds 1 ms asks the token
bucket for `1000 × scaled_delay` tokens; on refusal it sleeps briefly
and `continue`s — rereading the NEXT frame, because the refused frame
was already consumed from the stream.  Token arithmetic is `double`;
the concrete evaluations below use values at which binary64 arithmetic
is exact, so exact fractions model it faithfully.  `QF` is an
unnormalized fraction with positive denominator. -/

/-- Exact fraction (positive denominator by construction). -/
structure QF where
  n : Int
  d : Int
deriving DecidableEq, Repr

/-- Fraction comparison (denominators positive). -/
def QF.le (a b : QF) : Prop := a.n * b.d ≤ b.n * a.d

/-- Strict fraction comparison (denominators positive). -/
def QF.lt (a b : QF) : Prop := a.n * b.d < b.n * a.d

instance (a b : QF) : Decidable (QF.le a b) := by
  unfold QF.le; infer_instance
instance (a b : QF) : Decidable (QF.lt a b) := by
  unfold QF.lt; infer_instance

def QF.add (a b : QF) : QF := ⟨a.n * b.d + b.n * a.d, a.d * b.d⟩

def QF.sub (a b : QF) : QF := ⟨a.n * b.d - b.n * a.d, a.d * b.d⟩

def QF.mul (a b : QF) : QF := ⟨a.n * b.n, a.d * b.d⟩

/-- `std::min`. -/
def QF.minQ (a b : QF) : QF := if QF.le a b then a else b

/-- The literal topic the replayer derives from a frame body (it has
no registry handle, so the symbol is always `"UNKNOWN"`; heartbeat and
control-ack bodies leave the string empty). -/
def replay_base_topic : FrameBody → List Char
  | .l1 _ => "l1.UNKNOWN".data
  | .l2 _ => "l2.UNKNOWN".data
  | .trade _ => "trade.UNKNOWN".data
  | .hb _ => []
  | .ack _ => []

/-- The session-pattern check in `playback_thread`: a pattern sends the
frame when it is `"*"`, contains `*`, or is a prefix of the base topic
(`base_topic.find(pattern) == 0`). -/
def replay_topic_matches (patterns : List (List Char))
    (bt : List Char) : Bool :=
  patterns.any fun p => p == "*".data || p.contains '*' ||
    bt.take p.length == p

/-- `Replayer::get_virtual_topic`:
`"replay." + session_id + "." + base_topic`. -/
def get_virtual_topic (sid bt : List Char) : List Char :=
  "replay.".data ++ sid ++ ('.' :: bt)

/-- What one frame contributes to the publisher when it passes the
pattern check. -/
def replay_publish_step (sid : List Char) (patterns : List (List Char))
    (f : FrameBody) : List (List Char × FrameBody) :=
  if replay_topic_matches patterns (replay_base_topic f) then
    [(get_virtual_topic sid (replay_base_topic f), f)]
  else []

/-- `Replayer::playback_thread`, by iteration: state is the remaining
frame stream (`read_next_frame` pops its head — the file cursor), the
previous-timestamp watermark, the token count, and an oracle list of
elapsed seconds between `consume_tokens` calls.  Output: the
`(topic, frame)` pairs handed to `publisher_->publish`, in order.  On
insufficient tokens the code sleeps and `continue`s with the frame
already popped, so the next iteration reads the following frame.
(Segment timestamps are weakly increasing, so the `uint64` delay
`ts - prev` is the `Nat` difference.) -/
def playback (sid : List Char) (rate : QF) (end_ts : Nat)
    (patterns : List (List Char)) :
    List FrameBody → Option Nat → QF → List QF →
    List (List Char × FrameBody)
  | [], _, _, _ => []
  | f :: rest, prev, tokens, els =>
    if end_ts < f.ts then []
    else
      match prev with
      | some p =>
        -- scaled_delay_s = (ts - prev) / 1e9 / rate
        if QF.lt ⟨1, 1000⟩ ⟨((f.ts - p : Nat) : Int) * rate.d,
            1000000000 * rate.n⟩ then
          -- tokens_needed = scaled_delay_s * 1000
          if QF.le
              (QF.mul ⟨((f.ts - p : Nat) : Int) * rate.d,
                 1000000000 * rate.n⟩ ⟨1000, 1⟩)
              (QF.minQ
                (QF.add tokens
                  (QF.mul (QF.mul (els.headD ⟨0, 1⟩) ⟨1000, 1⟩) rate))
                ⟨10000, 1⟩) then
            replay_publish_step sid patterns f ++
              playback sid rate end_ts patterns rest (some f.ts)
                (QF.sub
                  (QF.minQ
                    (QF.add tokens
                      (QF.mul (QF.mul (els.headD ⟨0, 1⟩) ⟨1000, 1⟩) rate))
                    ⟨10000, 1⟩)
                  (QF.mul ⟨((f.ts - p : Nat) : Int) * rate.d,
                     1000000000 * rate.n⟩ ⟨1000, 1⟩))
                els.tail
          else
            -- rate limited: sleep and `continue` — frame f is LOST
            playback sid rate end_ts patterns rest prev
              (QF.minQ
                (QF.add tokens
                  (QF.mul (QF.mul (els.headD ⟨0, 1⟩) ⟨1000, 1⟩) rate))
                ⟨10000, 1⟩)
              els.tail
        else
          replay_publish_step sid patterns f ++
            playback sid rate end_ts patterns rest (some f.ts) tokens els
      | none =>
        replay_publish_step sid patterns f ++
          playback sid rate end_ts patterns rest (some f.ts) tokens els

/-- C9 evaluation at the failing input.  Session with rate 1, window
`[0, 10^10]`, pattern `"*"`, initial tokens 1000 (as `start_session`
sets); the segment holds two trades at `ts = 10^9` and `ts = 3·10^9`.
The second frame needs 2000 tokens; only 1000 are available (no time
elapsed), so `consume_tokens` refuses — but `read_next_frame` has
already advanced the cursor past it, and the `continue` reads
end-of-stream: the in-range, pattern-matching second frame is never
published.  The claim says the same frame is retried and no matching
in-range frame is ever skipped because of throttling. -/
theorem playback_drops_throttled_frame :
    playback "s".data ⟨1, 1⟩ 10000000000 ["*".data]
      [.trade ⟨1000000000, 1, 1, 1, 0, 1⟩,
       .trade ⟨3000000000, 1, 1, 1, 0, 2⟩]
      none ⟨1000, 1⟩ [⟨0, 1⟩, ⟨0, 1⟩] =
      [("replay.s.trade.UNKNOWN".data,
        .trade ⟨1000000000, 1, 1, 1, 0, 1⟩)] ∧
    (FrameBody.trade ⟨3000000000, 1, 1, 1, 0, 2⟩).ts ≤ 10000000000 ∧
    replay_topic_matches ["*".data]
      (replay_base_topic (.trade ⟨3000000000, 1, 1, 1, 0, 2⟩)) = true ∧
    ∀ pr ∈ playback "s".data ⟨1, 1⟩ 10000000000 ["*".data]
      [.trade ⟨1000000000, 1, 1, 1, 0, 1⟩,
       .trade ⟨3000000000, 1, 1, 1, 0, 2⟩]
      none ⟨1000, 1⟩ [⟨0, 1⟩, ⟨0, 1⟩],
      pr.2 ≠ .trade ⟨3000000000, 1, 1, 1, 0, 2⟩ := by
  refine ⟨by decide, by decide, by decide, by decide⟩

end MarketPulse
